import Mathlib

/-!
Shallow embedding of the `kushi-queue` playback-queue engine (`src/lib.rs`)
and verification of its specification's claims.

Rust `Vec<QueueItem>` is modelled as `List`; machine indices are `Nat`
(every arithmetic step that can underflow in Rust is guarded explicitly);
panicking control flow (index out of bounds, `todo!()`, `unimplemented!()`,
debug-mode subtraction underflow) is modelled by explicit `panic` results.
-/

namespace Kushi

/-- State of an entry in the pending sequence (`QueueState` in the source). -/
inductive QueueState where
  | Played
  | First
  | AddHere
  | NoState
deriving DecidableEq, Repr

/-- Payload of a queue entry: a single item or a group (`QueueItemType`). -/
inductive QueueItemType (T U : Type) where
  | Single (t : T)
  | Multi (u : U)
deriving DecidableEq, Repr

/-- A queue entry (`QueueItem`): payload, state, provenance tag, human flag. -/
structure QueueItem (T U L : Type) where
  item : QueueItemType T U
  state : QueueState
  source : Option L
  by_human : Bool
deriving DecidableEq, Repr

/-- The queue aggregate (`Queue`): pending items, played history, reserved
loop flag and shuffle permutation. -/
structure Queue (T U L : Type) where
  items : List (QueueItem T U L)
  played : List (QueueItem T U L)
  loop_ : Bool
  shuffle : Option (List Nat)
deriving DecidableEq, Repr

/-- Modelled from the spec: the error-kind enumeration of the repository's
`error` module, whose file is not present under `src/`; the variants are the
ones the spec's section 6 enumerates and `lib.rs` constructs. -/
inductive QueueError where
  | EmptyQueue
  | EmptyPlayed
  | NoNext
  | OutOfBounds (index : Nat) (len : Nat)
deriving DecidableEq, Repr

/-- Kinds of abnormal termination (Rust panics), distinguished by source:
an out-of-bounds index / `Vec` operation, a debug-mode `usize` subtraction
underflow, a `todo!()`, or an `unimplemented!()`. -/
inductive PanicKind where
  | indexOutOfBounds
  | subUnderflow
  | todoPanic
  | unimplementedPanic
deriving DecidableEq, Repr

/-- Result of a fallible queue operation: success and error results carry the
queue state after the call; a panic aborts. -/
inductive PRes (T U L α : Type) where
  | ok (q : Queue T U L) (val : α)
  | err (q : Queue T U L) (e : QueueError)
  | panic (k : PanicKind)
deriving DecidableEq, Repr

variable {T U L : Type} [DecidableEq T] [DecidableEq U] [DecidableEq L]

/-- `QueueItem::from_item_type`: state defaults to `NoState`, `by_human` to
`false`. -/
def QueueItem.from_item_type (item : QueueItemType T U) (source : Option L) :
    QueueItem T U L :=
  { item := item, state := QueueState.NoState, source := source, by_human := false }

namespace Queue

/-- `Queue::has_addhere`: some pending entry has state `AddHere`. -/
def has_addhere (q : Queue T U L) : Bool :=
  q.items.any (fun it => decide (it.state = QueueState.AddHere))

/-- `self.items[n].state = s` (callers guard the bound, as the Rust indexing
panics out of bounds). -/
def setStateAt : List (QueueItem T U L) → Nat → QueueState → List (QueueItem T U L)
  | [], _, _ => []
  | it :: rest, 0, s => { it with state := s } :: rest
  | it :: rest, n + 1, s => it :: setStateAt rest n s

/-- The map pass of `add_item`/`add_multi`: every `AddHere` entry is reset to
`NoState`. -/
def resetAddHere : List (QueueItem T U L) → List (QueueItem T U L)
  | [] => []
  | it :: rest =>
    (if it.state = QueueState.AddHere then { it with state := QueueState.NoState } else it)
      :: resetAddHere rest

/-- The index pass of `add_item`/`add_multi`: `i` starts at `0` and is
overwritten with the index of each `AddHere` entry met, so it ends at the last
such index (`0` when there is none). -/
def lastAddHereIdxAux : List (QueueItem T U L) → Nat → Nat → Nat
  | [], _, i => i
  | it :: rest, j, i =>
    lastAddHereIdxAux rest (j + 1) (if it.state = QueueState.AddHere then j else i)

/-- Index recorded by the enumerate-map scan of `add_item`/`add_multi`. -/
def lastAddHereIdx (l : List (QueueItem T U L)) : Nat :=
  lastAddHereIdxAux l 0 0

/-- `Queue::add_item`: reset every `AddHere` entry, remember the anchor index
`i` (default 0), insert the new item at `i + 1` (`0` on an empty queue) with
state `AddHere`. -/
def add_item (q : Queue T U L) (item : QueueItemType T U) (source : Option L)
    (by_human : Bool) : Queue T U L :=
  let mapped := resetAddHere q.items
  let i := lastAddHereIdx q.items
  let newItems := mapped.insertIdx (i + if mapped.isEmpty then 0 else 1)
    ⟨item, QueueState.AddHere, source, by_human⟩
  { q with items := newItems }

/-- `Queue::add_item_next`: insert at position 1 (0 when empty), `by_human`
true; the new entry is the anchor exactly when position 1 is vacant, or no
anchor exists while position 1 is occupied, or the queue is empty. -/
def add_item_next (q : Queue T U L) (item : QueueItemType T U) (source : Option L) :
    Queue T U L :=
  let empty := q.items.isEmpty
  let cond := ((q.items[1]?).isNone || (!has_addhere q && (q.items[1]?).isSome)) || empty
  let newItems := q.items.insertIdx (if empty then 0 else 1)
    ⟨item, if cond then QueueState.AddHere else QueueState.NoState, source, true⟩
  { q with items := newItems }

/-- `Queue::add_multi`: reset anchors, insert the batch in reverse order at
the fixed pivot, then set state `AddHere` at index `i + len - (1 when the
queue was empty else 0)` — the subtraction underflows (panics) when both the
queue and the batch are empty. -/
def add_multi (q : Queue T U L) (items : List (QueueItemType T U)) (source : Option L)
    (by_human : Bool) : Except PanicKind (Queue T U L) :=
  let mapped := resetAddHere q.items
  let i := lastAddHereIdx q.items
  let empty := mapped.isEmpty
  let len := items.length
  let inserted := items.reverse.foldl
    (fun acc it => acc.insertIdx (i + if empty then 0 else 1)
      ⟨it, QueueState.NoState, source, by_human⟩) mapped
  if i + len < (if empty then 1 else 0) then Except.error PanicKind.subUnderflow
  else
    let idx := i + len - (if empty then 1 else 0)
    if idx < inserted.length then
      Except.ok { q with items := setStateAt inserted idx QueueState.AddHere }
    else Except.error PanicKind.indexOutOfBounds

/-- `Queue::add_multi_next`: insert the batch at the fixed pivot 1 (0 when
empty), then transfer the anchor to index `len - (1 when empty else 0)` when
the `add_item_next` anchor condition held. -/
def add_multi_next (q : Queue T U L) (items : List (QueueItemType T U))
    (source : Option L) : Except PanicKind (Queue T U L) :=
  let empty := q.items.isEmpty
  let add_here := ((q.items[1]?).isNone || (!has_addhere q && (q.items[1]?).isSome)) || empty
  let len := items.length
  let inserted := items.foldl
    (fun acc it => acc.insertIdx (if empty then 0 else 1)
      ⟨it, QueueState.NoState, source, true⟩) q.items
  if add_here then
    if len < (if empty then 1 else 0) then Except.error PanicKind.subUnderflow
    else
      let idx := len - (if empty then 1 else 0)
      if idx < inserted.length then
        Except.ok { q with items := setStateAt inserted idx QueueState.AddHere }
      else Except.error PanicKind.indexOutOfBounds
  else Except.ok { q with items := inserted }

/-- `Queue::remove_item`: out of range yields `EmptyQueue`; in range, the
follower (when present) inherits the removed entry's state, and the entry is
removed and returned. -/
def remove_item (q : Queue T U L) (remove_index : Nat) :
    PRes T U L (QueueItem T U L) :=
  if h : remove_index < q.items.length then
    let updated := if (q.items[remove_index + 1]?).isSome
      then setStateAt q.items (remove_index + 1) (q.items.get ⟨remove_index, h⟩).state
      else q.items
    PRes.ok { q with items := updated.eraseIdx remove_index } (q.items.get ⟨remove_index, h⟩)
  else PRes.err q QueueError.EmptyQueue

/-- `Queue::insert`: positional insert; fails with `OutOfBounds` when neither
`index` nor `index - 1` (for `index > 0`) is an existing slot; with `addhere`
it first resets every existing anchor and marks the new entry `AddHere`. -/
def insert (q : Queue T U L) (index : Nat) (new_item : QueueItemType T U)
    (source : Option L) (addhere : Bool) : PRes T U L Unit :=
  if (q.items[index]?).isNone && decide (index > 0) && (q.items[index - 1]?).isNone then
    PRes.err q (QueueError.OutOfBounds index q.items.length)
  else if addhere then
    let newItems := (resetAddHere q.items).insertIdx index
      ⟨new_item, QueueState.AddHere, source, false⟩
    PRes.ok { q with items := newItems } ()
  else
    let newItems := q.items.insertIdx index (QueueItem.from_item_type new_item source)
    PRes.ok { q with items := newItems } ()

/-- `Queue::clear_except`: retain every entry value-equal to the entry at
`index`, then force the first retained entry's state to `AddHere`; empty
queue yields `EmptyQueue`, an out-of-range index `OutOfBounds`. -/
def clear_except (q : Queue T U L) (index : Nat) : PRes T U L Unit :=
  if h : q.items.isEmpty = false ∧ index < q.items.length then
    let target := q.items.get ⟨index, h.2⟩
    let kept := q.items.filter (fun it => decide (it = target))
    if kept.isEmpty then PRes.panic PanicKind.indexOutOfBounds
    else PRes.ok { q with items := setStateAt kept 0 QueueState.AddHere } ()
  else if q.items.isEmpty then PRes.err q QueueError.EmptyQueue
  else PRes.err q (QueueError.OutOfBounds index q.items.length)

/-- The `loop` of `Queue::move_to`: reads `items[0]` (panicking when `items`
is empty), stops when the front's payload equals the target's, otherwise
transfers the anchor to the next entry when the front held it, pops the front
into `played`, and repeats. -/
def move_loop (t : QueueItem T U L) :
    List (QueueItem T U L) → List (QueueItem T U L) →
    Except PanicKind (List (QueueItem T U L) × List (QueueItem T U L))
  | [], _ => Except.error PanicKind.indexOutOfBounds
  | it :: rest, played =>
    if it.item = t.item then Except.ok (it :: rest, played)
    else
      match rest with
      | [] => move_loop t [] (played ++ [it])
      | r0 :: rtail =>
        move_loop t
          ((if it.state = QueueState.AddHere then { r0 with state := QueueState.AddHere }
            else r0) :: rtail)
          (played ++ [it])
termination_by l _ => l.length
decreasing_by
  all_goals simp

/-- `Queue::move_to`: fails with `EmptyQueue` when the queue is empty or the
index is out of range, panics (`unimplemented!()`) on a group target, and
otherwise runs the pop loop. -/
def move_to (q : Queue T U L) (index : Nat) : PRes T U L Unit :=
  if q.items.isEmpty then PRes.err q QueueError.EmptyQueue
  else if h : index < q.items.length then
    let to_item := q.items.get ⟨index, h⟩
    match to_item.item with
    | QueueItemType.Multi _ => PRes.panic PanicKind.unimplementedPanic
    | QueueItemType.Single _ =>
      match move_loop to_item q.items q.played with
      | Except.error k => PRes.panic k
      | Except.ok (items1, played1) => PRes.ok { q with items := items1, played := played1 } ()
  else PRes.err q QueueError.EmptyQueue

/-- `Queue::next`: on an empty queue, `EmptyQueue` (looping is
`unimplemented!()`); when the front is the anchor or no anchor exists, a group
front is `unimplemented!()`, the front's state is reset and the next entry
(when present) becomes the anchor; the front is then popped into `played`,
and `NoNext` is returned when the queue became empty. -/
def next (q : Queue T U L) : PRes T U L (QueueItem T U L) :=
  match q.items with
  | [] =>
    if q.loop_ then PRes.panic PanicKind.unimplementedPanic
    else PRes.err q QueueError.EmptyQueue
  | it :: rest =>
    if it.state = QueueState.AddHere ∨ has_addhere q = false then
      match it.item with
      | QueueItemType.Multi _ => PRes.panic PanicKind.unimplementedPanic
      | QueueItemType.Single _ =>
        let rest1 := match rest with
          | [] => ([] : List (QueueItem T U L))
          | r0 :: rtail => { r0 with state := QueueState.AddHere } :: rtail
        let q1 := { q with items := rest1,
                           played := q.played ++ [{ it with state := QueueState.NoState }] }
        match rest1 with
        | [] => PRes.err q1 QueueError.NoNext
        | front :: _ => PRes.ok q1 front
    else
      let q1 := { q with items := rest, played := q.played ++ [it] }
      match rest with
      | [] => PRes.err q1 QueueError.NoNext
      | front :: _ => PRes.ok q1 front

/-- `Queue::prev`: pops the most recent history entry; `todo!()` when it has
state `First` under the loop flag; reads `items[0]` (panicking when `items`
is empty) and `unimplemented!()` on group fronts; otherwise reinserts at the
front. -/
def prev (q : Queue T U L) : PRes T U L (QueueItem T U L) :=
  match q.played.getLast? with
  | none => PRes.err q QueueError.EmptyPlayed
  | some item =>
    if item.state = QueueState.First ∧ q.loop_ = true then PRes.panic PanicKind.todoPanic
    else
      match q.items with
      | [] => PRes.panic PanicKind.indexOutOfBounds
      | front :: _ =>
        match front.item with
        | QueueItemType.Multi _ => PRes.panic PanicKind.unimplementedPanic
        | QueueItemType.Single _ =>
          match item.item with
          | QueueItemType.Multi _ => PRes.panic PanicKind.unimplementedPanic
          | QueueItemType.Single _ =>
            PRes.ok { q with items := item :: q.items, played := q.played.dropLast } item

/-- `Queue::current`: the front pending entry; `EmptyQueue` when none,
`unimplemented!()` on a group front; never mutates. -/
def current (q : Queue T U L) : PRes T U L (QueueItem T U L) :=
  match q.items with
  | [] => PRes.err q QueueError.EmptyQueue
  | it :: _ =>
    match it.item with
    | QueueItemType.Multi _ => PRes.panic PanicKind.unimplementedPanic
    | QueueItemType.Single _ => PRes.ok q it

/-- `Queue::move_item`: reads the entry at `from` (panicking out of bounds),
removes it unless `from = to`, and reinserts it at `to`. -/
def move_item (q : Queue T U L) (fromIdx toIdx : Nat) :
    Except PanicKind (Queue T U L) :=
  if h : fromIdx < q.items.length then
    let item := q.items.get ⟨fromIdx, h⟩
    let items1 := if fromIdx ≠ toIdx then q.items.eraseIdx fromIdx else q.items
    if toIdx ≤ items1.length then Except.ok { q with items := items1.insertIdx toIdx item }
    else Except.error PanicKind.indexOutOfBounds
  else Except.error PanicKind.indexOutOfBounds

end Queue

/-- Number of `AddHere` entries in a pending sequence. -/
def countAddHere (l : List (QueueItem T U L)) : Nat :=
  l.countP (fun it => decide (it.state = QueueState.AddHere))

/-- Position of "the entry with state `AddHere`" as the spec words it: the
first (under the uniqueness invariant, the only) anchor index. -/
def specAnchorIdx (l : List (QueueItem T U L)) : Option Nat :=
  l.findIdx? (fun it => decide (it.state = QueueState.AddHere))

/-- Resetting "that entry's state to `NoState`", as the spec words it. -/
def specResetAnchor (l : List (QueueItem T U L)) : List (QueueItem T U L) :=
  match specAnchorIdx l with
  | some k => Queue.setStateAt l k QueueState.NoState
  | none => l

/-- Whether a payload is a `Single` (non-group) item. -/
def isSingleItem (x : QueueItemType T U) : Bool :=
  match x with
  | QueueItemType.Single _ => true
  | QueueItemType.Multi _ => false

/-- No group-typed item occurs in the sequence. -/
def allSingle (l : List (QueueItem T U L)) : Bool :=
  l.all (fun it => isSingleItem it.item)

/-- A `next` call viewed as a partial state transition (the successor state
when it returns `Ok`). -/
def nextQ? (q : Queue T U L) : Option (Queue T U L) :=
  match Queue.next q with
  | PRes.ok q1 _ => some q1
  | _ => none

/-- A `prev` call viewed as a partial state transition. -/
def prevQ? (q : Queue T U L) : Option (Queue T U L) :=
  match Queue.prev q with
  | PRes.ok q1 _ => some q1
  | _ => none

/-- Iterate a partial state transition `n` times. -/
def iterOp (f : Queue T U L → Option (Queue T U L)) : Nat → Queue T U L → Option (Queue T U L)
  | 0, q => some q
  | n + 1, q =>
    match f q with
    | some q1 => iterOp f n q1
    | none => none

/-- The front entry is not the anchor while an anchor exists: exactly the
condition under which `next` pops without touching any state. -/
def calmFront (q : Queue T U L) : Bool :=
  match q.items with
  | [] => false
  | it :: _ => !(decide (it.state = QueueState.AddHere)) && Queue.has_addhere q

/-- The next `n` calls to `next` all pop without state mutation. -/
def calmN : Nat → Queue T U L → Bool
  | 0, _ => true
  | n + 1, q =>
    calmFront q && (match nextQ? q with
      | some q1 => calmN n q1
      | none => false)

/-! Helper lemmas about the list primitives of the embedding. -/

theorem isSome_idx {α : Type} (l : List α) (n : Nat) :
    l[n]?.isSome = true ↔ n < l.length := by
  constructor
  · intro h
    by_contra hc
    rw [List.getElem?_eq_none (by omega)] at h
    simp at h
  · intro h
    rw [List.getElem?_eq_getElem h]
    rfl

theorem length_setStateAt (l : List (QueueItem T U L)) (n : Nat) (s : QueueState) :
    (Queue.setStateAt l n s).length = l.length := by
  induction l generalizing n with
  | nil => cases n <;> rfl
  | cons a t ih =>
    cases n with
    | zero => rfl
    | succ m => simp [Queue.setStateAt, ih]

theorem setStateAt_take_drop (l : List (QueueItem T U L)) (n : Nat) (s : QueueState) :
    Queue.setStateAt l n s = l.take n ++ (match l.drop n with
      | [] => []
      | a :: r => { a with state := s } :: r) := by
  induction l generalizing n with
  | nil => cases n <;> rfl
  | cons a t ih =>
    cases n with
    | zero => rfl
    | succ m => simp [Queue.setStateAt, ih]

theorem insertIdx_take_drop {α : Type} (l : List α) (n : Nat) (a : α) (h : n ≤ l.length) :
    l.insertIdx n a = l.take n ++ a :: l.drop n := by
  induction l generalizing n with
  | nil =>
    cases n with
    | zero => rfl
    | succ m => simp at h
  | cons b t ih =>
    cases n with
    | zero => simp [List.insertIdx_zero]
    | succ m =>
      rw [List.insertIdx_succ_cons]
      simp only [List.take, List.drop, List.cons_append, List.cons.injEq, true_and]
      exact ih m (by simpa using h)

theorem length_resetAddHere (l : List (QueueItem T U L)) :
    (Queue.resetAddHere l).length = l.length := by
  induction l with
  | nil => rfl
  | cons a t ih => simp [Queue.resetAddHere, ih]

theorem isEmpty_resetAddHere (l : List (QueueItem T U L)) :
    (Queue.resetAddHere l).isEmpty = l.isEmpty := by
  cases l <;> rfl

theorem countAddHere_resetAddHere (l : List (QueueItem T U L)) :
    countAddHere (Queue.resetAddHere l) = 0 := by
  induction l with
  | nil => rfl
  | cons a t ih =>
    by_cases h : a.state = QueueState.AddHere <;>
      simp [Queue.resetAddHere, countAddHere, List.countP_cons, h] <;>
      simpa [countAddHere] using ih

theorem resetAddHere_of_count_zero (l : List (QueueItem T U L))
    (h : countAddHere l = 0) : Queue.resetAddHere l = l := by
  induction l with
  | nil => rfl
  | cons a t ih =>
    simp only [countAddHere, List.countP_cons] at h
    have ha : ¬ a.state = QueueState.AddHere := by
      by_contra hc
      simp [hc] at h
    have ht : countAddHere t = 0 := by
      simp only [countAddHere]
      omega
    simp [Queue.resetAddHere, ha, ih ht]

theorem lastAux_of_count_zero (l : List (QueueItem T U L)) (j i : Nat)
    (h : countAddHere l = 0) : Queue.lastAddHereIdxAux l j i = i := by
  induction l generalizing j i with
  | nil => rfl
  | cons a t ih =>
    simp only [countAddHere, List.countP_cons] at h
    have ha : ¬ a.state = QueueState.AddHere := by
      by_contra hc
      simp [hc] at h
    have ht : countAddHere t = 0 := by
      simp only [countAddHere]
      omega
    simp [Queue.lastAddHereIdxAux, ha, ih _ _ ht]

theorem lastAux_char (l : List (QueueItem T U L)) (j i : Nat)
    (h : countAddHere l ≤ 1) :
    Queue.lastAddHereIdxAux l j i
      = (List.findIdx? (fun it => decide (it.state = QueueState.AddHere)) l j).getD i := by
  induction l generalizing j i with
  | nil => rfl
  | cons a t ih =>
    by_cases ha : a.state = QueueState.AddHere
    · have hs : countAddHere (a :: t) = countAddHere t + 1 := by
        simp [countAddHere, List.countP_cons, ha]
      have ht : countAddHere t = 0 := by omega
      simp [Queue.lastAddHereIdxAux, ha, List.findIdx?_cons,
        lastAux_of_count_zero t _ _ ht]
    · have hs : countAddHere (a :: t) = countAddHere t := by
        simp [countAddHere, List.countP_cons, ha]
      have ht : countAddHere t ≤ 1 := by omega
      simp [Queue.lastAddHereIdxAux, ha, List.findIdx?_cons, ih _ _ ht]

theorem lastAddHereIdx_char (l : List (QueueItem T U L)) (h : countAddHere l ≤ 1) :
    Queue.lastAddHereIdx l = (specAnchorIdx l).getD 0 := by
  simpa [Queue.lastAddHereIdx, specAnchorIdx] using lastAux_char l 0 0 h

theorem resetAddHere_char (l : List (QueueItem T U L)) (h : countAddHere l ≤ 1) :
    Queue.resetAddHere l = specResetAnchor l := by
  induction l with
  | nil => rfl
  | cons a t ih =>
    by_cases ha : a.state = QueueState.AddHere
    · have hs : countAddHere (a :: t) = countAddHere t + 1 := by
        simp [countAddHere, List.countP_cons, ha]
      have ht : countAddHere t = 0 := by omega
      simp [Queue.resetAddHere, ha, specResetAnchor, specAnchorIdx, List.findIdx?_cons,
        resetAddHere_of_count_zero t ht, Queue.setStateAt]
    · have hs : countAddHere (a :: t) = countAddHere t := by
        simp [countAddHere, List.countP_cons, ha]
      have ht : countAddHere t ≤ 1 := by omega
      simp only [Queue.resetAddHere, if_neg ha, ih ht, specResetAnchor, specAnchorIdx,
        List.findIdx?_cons]
      rw [if_neg (by simp [ha]), List.findIdx?_succ]
      cases hf : List.findIdx? (fun it => decide (it.state = QueueState.AddHere)) t with
      | none => simp
      | some k => simp [Queue.setStateAt]

theorem lastAux_bound (l : List (QueueItem T U L)) (j i : Nat) :
    Queue.lastAddHereIdxAux l j i < j + l.length ∨ Queue.lastAddHereIdxAux l j i = i := by
  induction l generalizing j i with
  | nil => right; rfl
  | cons a t ih =>
    by_cases ha : a.state = QueueState.AddHere
    · simp only [Queue.lastAddHereIdxAux, if_pos ha, List.length_cons]
      rcases ih (j + 1) j with hlt | heq
      · left; omega
      · left; omega
    · simp only [Queue.lastAddHereIdxAux, if_neg ha, List.length_cons]
      rcases ih (j + 1) i with hlt | heq
      · left; omega
      · right; exact heq

theorem lastAddHereIdx_lt (l : List (QueueItem T U L)) (h : l ≠ []) :
    Queue.lastAddHereIdx l < l.length := by
  have hlen : 0 < l.length := List.length_pos.mpr h
  rcases lastAux_bound l 0 0 with hlt | heq
  · simpa using hlt
  · rw [Queue.lastAddHereIdx, heq]
    exact hlen

/-! The claims. -/

/-- C1: the claimed invariant — at most one `AddHere` entry after any sequence
of enqueue operations — is violated by the code: `add_item_next` applied to a
one-element queue whose sole entry is the anchor leaves two `AddHere` entries
(the `items.get(1).is_none()` disjunct grants the new entry the anchor without
clearing the existing one). -/
theorem claim_C1_code_bug :
    countAddHere ((Queue.add_item_next
      (⟨[⟨QueueItemType.Single 0, QueueState.AddHere, none, false⟩], [], false, none⟩ :
        Queue Nat Nat Nat) (QueueItemType.Single 1) none).items) = 2 := by
  decide

/-- C2 (counterexample): with the anchor at the front, `next()` moves the
anchor before popping and `prev()` does not undo it, so one `next` followed by
one `prev` yields a different `items` sequence than the original. -/
theorem claim_C2_counterexample :
    (iterOp nextQ? 1 (⟨[⟨QueueItemType.Single 0, QueueState.AddHere, none, false⟩,
        ⟨QueueItemType.Single 1, QueueState.NoState, none, false⟩], [], false, none⟩ :
      Queue Nat Nat Nat)).bind (iterOp prevQ? 1)
      = some ⟨[⟨QueueItemType.Single 0, QueueState.NoState, none, false⟩,
          ⟨QueueItemType.Single 1, QueueState.AddHere, none, false⟩], [], false, none⟩
    ∧ ([⟨QueueItemType.Single 0, QueueState.NoState, none, false⟩,
        ⟨QueueItemType.Single 1, QueueState.AddHere, none, false⟩] :
          List (QueueItem Nat Nat Nat))
      ≠ [⟨QueueItemType.Single 0, QueueState.AddHere, none, false⟩,
          ⟨QueueItemType.Single 1, QueueState.NoState, none, false⟩] := by
  exact ⟨by decide, by decide⟩

/-- C4 (counterexample): `next()` on a one-element queue returns the `NoNext`
error only after having moved the front item into `played`, so this error
return does not leave the two sequences unmutated. -/
theorem claim_C4_counterexample :
    Queue.next (⟨[⟨QueueItemType.Single 0, QueueState.NoState, none, false⟩], [], false,
        none⟩ : Queue Nat Nat Nat)
      = PRes.err ⟨[], [⟨QueueItemType.Single 0, QueueState.NoState, none, false⟩], false,
          none⟩ QueueError.NoNext
    ∧ ([⟨QueueItemType.Single 0, QueueState.NoState, none, false⟩] :
        List (QueueItem Nat Nat Nat)) ≠ [] := by
  exact ⟨by decide, by decide⟩

/-- C8 (counterexample): with the loop flag set and the most recent played
item in state `First`, `prev()` on an empty pending sequence panics through
the `todo!()` loop path, not through the out-of-bounds `items[0]` read the
claim describes. -/
theorem claim_C8_counterexample :
    Queue.prev (⟨[], [⟨QueueItemType.Single 0, QueueState.First, none, false⟩], true,
        none⟩ : Queue Nat Nat Nat) = PRes.panic PanicKind.todoPanic
    ∧ PanicKind.todoPanic ≠ PanicKind.indexOutOfBounds := by
  exact ⟨by decide, by decide⟩

/-- C8 (amended): whenever `items` is empty, `played` is non-empty, and the
popped history item does not trip the `First`-under-loop `todo!()`, `prev()`
panics with the out-of-bounds `items[0]` read instead of restoring the item
or returning an error. -/
theorem claim_C8_amended (q : Queue T U L) (hi : q.items = []) (hp : q.played ≠ [])
    (hnf : ∀ it, q.played.getLast? = some it →
      ¬(it.state = QueueState.First ∧ q.loop_ = true)) :
    Queue.prev q = PRes.panic PanicKind.indexOutOfBounds := by
  cases hlast : q.played.getLast? with
  | none => exact absurd (List.getLast?_eq_none_iff.mp hlast) hp
  | some it =>
    simp only [Queue.prev, hlast, hi]
    rw [if_neg (hnf it hlast)]

/-- Witness for C8 (amended) at a concrete queue. -/
theorem claim_C8_witness :
    Queue.prev (⟨[], [⟨QueueItemType.Single 0, QueueState.NoState, none, false⟩], false,
        none⟩ : Queue Nat Nat Nat) = PRes.panic PanicKind.indexOutOfBounds :=
  claim_C8_amended _ rfl (by decide) (fun it hit => by
    simp only [List.getLast?_singleton, Option.some.injEq] at hit
    subst hit
    decide)

/-- C9: for a valid index `i`, `move_item(i, i)` skips the removal but still
inserts, duplicating the entry at `i` and growing `items` by one. -/
theorem claim_C9 (q : Queue T U L) (i : Nat) (h : i < q.items.length) :
    Queue.move_item q i i
      = Except.ok { q with items := q.items.insertIdx i (q.items.get ⟨i, h⟩) }
    ∧ (q.items.insertIdx i (q.items.get ⟨i, h⟩)).length = q.items.length + 1
    ∧ (q.items.insertIdx i (q.items.get ⟨i, h⟩))[i]? = some (q.items.get ⟨i, h⟩)
    ∧ (q.items.insertIdx i (q.items.get ⟨i, h⟩))[i + 1]? = some (q.items.get ⟨i, h⟩) := by
  have hle : i ≤ q.items.length := Nat.le_of_lt h
  have htk : (q.items.take i).length = i := by
    simp [List.length_take]
    omega
  refine ⟨?_, List.length_insertIdx i _ hle, ?_, ?_⟩
  · simp [Queue.move_item, h, hle]
  · rw [insertIdx_take_drop _ _ _ hle,
      List.getElem?_append_right (by omega : (q.items.take i).length ≤ i), htk]
    simp
  · rw [insertIdx_take_drop _ _ _ hle,
      List.getElem?_append_right (by omega : (q.items.take i).length ≤ i + 1), htk]
    have h1 : i + 1 - i = 1 := by omega
    rw [h1]
    simp [List.getElem?_drop, List.getElem?_eq_getElem h]

/-- Witness for C9 at a concrete queue. -/
theorem claim_C9_witness :
    Queue.move_item (⟨[⟨QueueItemType.Single 5, QueueState.AddHere, none, false⟩], [],
        false, none⟩ : Queue Nat Nat Nat) 0 0
      = Except.ok ⟨[⟨QueueItemType.Single 5, QueueState.AddHere, none, false⟩,
          ⟨QueueItemType.Single 5, QueueState.AddHere, none, false⟩], [], false, none⟩ := by
  have := (claim_C9 (⟨[⟨QueueItemType.Single 5, QueueState.AddHere, none, false⟩], [],
      false, none⟩ : Queue Nat Nat Nat) 0 (by decide)).1
  simpa [List.insertIdx_zero] using this

/-- C10: `add_multi` with an empty batch on an empty queue panics — the
anchor-index computation `i + len - 1` underflows — instead of leaving the
queue unchanged. -/
theorem claim_C10 (q : Queue T U L) (s : Option L) (b : Bool) (h : q.items = []) :
    Queue.add_multi q [] s b = Except.error PanicKind.subUnderflow := by
  simp [Queue.add_multi, h, Queue.resetAddHere, Queue.lastAddHereIdx,
    Queue.lastAddHereIdxAux]

/-- Witness for C10 at the empty queue. -/
theorem claim_C10_witness :
    Queue.add_multi (⟨[], [], false, none⟩ : Queue Nat Nat Nat) [] none false
      = Except.error PanicKind.subUnderflow :=
  claim_C10 _ none false rfl

/-- C4 (amended): every fallible operation of the queue other than `next`
(`remove_item`, `insert`, `clear_except`, `move_to`, `prev`, `current`) leaves
`items` and `played` unmutated whenever it returns an error, and `next` does
so on its `EmptyQueue` error — its `NoNext` error alone is returned after the
front item has already moved to `played`. -/
theorem claim_C4_amended (q : Queue T U L) (idx : Nat) (x : QueueItemType T U)
    (s : Option L) (b : Bool) :
    (match Queue.remove_item q idx with
      | PRes.err q1 _ => q1 = q
      | _ => True)
    ∧ (match Queue.insert q idx x s b with
      | PRes.err q1 _ => q1 = q
      | _ => True)
    ∧ (match Queue.clear_except q idx with
      | PRes.err q1 _ => q1 = q
      | _ => True)
    ∧ (match Queue.move_to q idx with
      | PRes.err q1 _ => q1 = q
      | _ => True)
    ∧ (match Queue.prev q with
      | PRes.err q1 _ => q1 = q
      | _ => True)
    ∧ (match Queue.current q with
      | PRes.err q1 _ => q1 = q
      | _ => True)
    ∧ (match Queue.next q with
      | PRes.err q1 QueueError.EmptyQueue => q1 = q
      | _ => True) := by
  refine ⟨?_, ?_, ?_, ?_, ?_, ?_, ?_⟩
  · rcases hr : Queue.remove_item q idx with ⟨q1, v⟩ | ⟨q1, e⟩ | k
    · simp only [hr]
    · simp only [hr]
      unfold Queue.remove_item at hr
      split at hr
      · simp at hr
      · cases hr; rfl
    · simp only [hr]
  · rcases hr : Queue.insert q idx x s b with ⟨q1, v⟩ | ⟨q1, e⟩ | k
    · simp only [hr]
    · simp only [hr]
      unfold Queue.insert at hr
      split at hr
      · cases hr; rfl
      · split at hr <;> simp at hr
    · simp only [hr]
  · rcases hr : Queue.clear_except q idx with ⟨q1, v⟩ | ⟨q1, e⟩ | k
    · simp only [hr]
    · simp only [hr]
      unfold Queue.clear_except at hr
      split at hr
      · dsimp only at hr
        split at hr <;> simp at hr
      · split at hr
        · cases hr; rfl
        · cases hr; rfl
    · simp only [hr]
  · rcases hr : Queue.move_to q idx with ⟨q1, v⟩ | ⟨q1, e⟩ | k
    · simp only [hr]
    · simp only [hr]
      unfold Queue.move_to at hr
      split at hr
      · cases hr; rfl
      · split at hr
        · dsimp only at hr
          split at hr
          · simp at hr
          · split at hr <;> simp at hr
        · cases hr; rfl
    · simp only [hr]
  · rcases hr : Queue.prev q with ⟨q1, v⟩ | ⟨q1, e⟩ | k
    · simp only [hr]
    · simp only [hr]
      unfold Queue.prev at hr
      split at hr
      · cases hr; rfl
      · split at hr
        · simp at hr
        · split at hr
          · simp at hr
          · split at hr
            · simp at hr
            · split at hr <;> simp at hr
    · simp only [hr]
  · rcases hr : Queue.current q with ⟨q1, v⟩ | ⟨q1, e⟩ | k
    · simp only [hr]
    · simp only [hr]
      unfold Queue.current at hr
      split at hr
      · cases hr; rfl
      · split at hr <;> simp at hr
    · simp only [hr]
  · rcases hr : Queue.next q with ⟨q1, v⟩ | ⟨q1, e⟩ | k
    · exact trivial
    · rcases e with _ | _ | _ | ⟨i0, l0⟩
      · show q1 = q
        unfold Queue.next at hr
        split at hr
        · split at hr
          · simp at hr
          · cases hr; rfl
        · split at hr
          · split at hr
            · simp at hr
            · split at hr <;> simp at hr
          · split at hr <;> simp at hr
      · exact trivial
      · exact trivial
      · exact trivial
    · exact trivial

/-- Removing in-range index `i` after the state inheritance step, expressed by
`take`/`drop`. -/
theorem erase_after_inherit (l : List (QueueItem T U L)) (i : Nat) (s : QueueState)
    (h : i < l.length) :
    (if (l[i + 1]?).isSome then Queue.setStateAt l (i + 1) s else l).eraseIdx i
      = l.take i ++ (match l.drop (i + 1) with
          | [] => []
          | a :: r => { a with state := s } :: r) := by
  by_cases h2 : i + 1 < l.length
  · rw [if_pos ((isSome_idx l (i + 1)).mpr h2)]
    rw [setStateAt_take_drop]
    cases hd : l.drop (i + 1) with
    | nil =>
      rw [List.drop_eq_nil_iff] at hd
      omega
    | cons a r =>
      dsimp only
      rw [List.eraseIdx_eq_take_drop_succ]
      have hlx : (l.take (i + 1)).length = i + 1 := by
        simp [List.length_take]
        omega
      rw [List.take_append_of_le_length (by omega), List.take_take]
      have hdrop : List.drop (i + 1) (l.take (i + 1) ++ ({ a with state := s } :: r))
          = { a with state := s } :: r := by
        have hdl := List.drop_left (l.take (i + 1)) ({ a with state := s } :: r)
        rwa [hlx] at hdl
      rw [hdrop]
      simp [Nat.min_eq_left (by omega : i ≤ i + 1)]
  · rw [if_neg (by rw [isSome_idx]; omega)]
    rw [List.eraseIdx_eq_take_drop_succ, List.drop_eq_nil_of_le (by omega)]

/-- C5: `remove_item(index)` returns the `EmptyQueue` error exactly when the
index is out of range (queue unchanged); in range it removes and returns the
entry at `index`, the following entry (when present) inherits the removed
entry's state, and the length shrinks by one. -/
theorem claim_C5 (q : Queue T U L) (idx : Nat) :
    (q.items.length ≤ idx ↔ Queue.remove_item q idx = PRes.err q QueueError.EmptyQueue)
    ∧ (∀ h : idx < q.items.length,
        Queue.remove_item q idx
          = PRes.ok { q with items := (q.items.take idx ++
              (match q.items.drop (idx + 1) with
                | [] => []
                | it2 :: rest2 =>
                  { it2 with state := (q.items.get ⟨idx, h⟩).state } :: rest2)) }
            (q.items.get ⟨idx, h⟩)
        ∧ (q.items.take idx ++ (match q.items.drop (idx + 1) with
            | [] => []
            | it2 :: rest2 =>
              { it2 with state := (q.items.get ⟨idx, h⟩).state } :: rest2)).length + 1
          = q.items.length) := by
  constructor
  · constructor
    · intro hge
      simp [Queue.remove_item, Nat.not_lt.mpr hge]
    · intro he
      by_cases h : idx < q.items.length
      · simp [Queue.remove_item, h] at he
      · omega
  · intro h
    constructor
    · unfold Queue.remove_item
      rw [dif_pos h]
      dsimp only
      rw [erase_after_inherit q.items idx _ h]
    · have hlent : (q.items.take idx).length = idx := by
        simp [List.length_take]
        omega
      have hM : (match q.items.drop (idx + 1) with
          | [] => ([] : List (QueueItem T U L))
          | it2 :: rest2 =>
            { it2 with state := (q.items.get ⟨idx, h⟩).state } :: rest2).length
          = (q.items.drop (idx + 1)).length := by
        cases hd : q.items.drop (idx + 1) <;> simp
      rw [List.length_append, hlent, hM, List.length_drop]
      omega

/-- Witness for C5 at a concrete two-element queue with the anchor first. -/
theorem claim_C5_witness :
    Queue.remove_item (⟨[⟨QueueItemType.Single 0, QueueState.AddHere, none, false⟩,
        ⟨QueueItemType.Single 1, QueueState.NoState, none, false⟩], [], false, none⟩ :
      Queue Nat Nat Nat) 0
      = PRes.ok ⟨[⟨QueueItemType.Single 1, QueueState.AddHere, none, false⟩], [], false,
          none⟩ ⟨QueueItemType.Single 0, QueueState.AddHere, none, false⟩ := by
  have := ((claim_C5 (⟨[⟨QueueItemType.Single 0, QueueState.AddHere, none, false⟩,
      ⟨QueueItemType.Single 1, QueueState.NoState, none, false⟩], [], false, none⟩ :
    Queue Nat Nat Nat) 0).2 (by decide)).1
  simpa using this

/-- C6: `add_item_next` inserts at position 1 (0 on an empty queue) with
`by_human = true`, leaves every pre-existing entry unchanged, and the inserted
entry has state `AddHere` exactly when position 1 had no entry, or no anchor
existed while position 1 was occupied, or the queue was empty — `NoState`
otherwise. -/
theorem claim_C6 (q : Queue T U L) (x : QueueItemType T U) (s : Option L) :
    ((Queue.add_item_next q x s).items).length = q.items.length + 1
    ∧ ((Queue.add_item_next q x s).items).take (if q.items.isEmpty then 0 else 1)
        = q.items.take (if q.items.isEmpty then 0 else 1)
    ∧ ((Queue.add_item_next q x s).items).drop ((if q.items.isEmpty then 0 else 1) + 1)
        = q.items.drop (if q.items.isEmpty then 0 else 1)
    ∧ ((Queue.add_item_next q x s).items)[(if q.items.isEmpty then 0 else 1)]?
        = some ⟨x, (if (q.items[1]? = none
              ∨ (Queue.has_addhere q = false ∧ q.items[1]? ≠ none)
              ∨ q.items = [])
            then QueueState.AddHere else QueueState.NoState), s, true⟩ := by
  cases hq : q.items with
  | nil => simp [Queue.add_item_next, hq, List.insertIdx_zero]
  | cons a t =>
    cases ht : t with
    | nil =>
      simp [Queue.add_item_next, hq, ht, List.insertIdx_succ_cons, List.insertIdx_zero]
    | cons b t2 =>
      by_cases hah : Queue.has_addhere q = true
      · simp [Queue.add_item_next, hq, ht, List.insertIdx_succ_cons, List.insertIdx_zero,
          hah]
      · have hah2 : Queue.has_addhere q = false := by
          cases hv : Queue.has_addhere q
          · rfl
          · exact absurd hv hah
        simp [Queue.add_item_next, hq, ht, List.insertIdx_succ_cons, List.insertIdx_zero,
          hah2]

/-- C7: `clear_except(index)` fails with `EmptyQueue` on an empty queue and
with `OutOfBounds` on an out-of-range index of a non-empty queue, leaving the
queue unchanged; otherwise it retains exactly the entries value-equal to the
entry at `index`, in order, and sets the new first entry's state to
`AddHere`. -/
theorem claim_C7 (q : Queue T U L) (idx : Nat) :
    (q.items = [] → Queue.clear_except q idx = PRes.err q QueueError.EmptyQueue)
    ∧ (q.items ≠ [] → q.items.length ≤ idx →
        Queue.clear_except q idx = PRes.err q (QueueError.OutOfBounds idx q.items.length))
    ∧ (∀ h : idx < q.items.length,
        Queue.clear_except q idx
          = PRes.ok { q with items := (Queue.setStateAt (q.items.filter
              (fun it => decide (it = q.items.get ⟨idx, h⟩))) 0 QueueState.AddHere) } ()) := by
  refine ⟨?_, ?_, ?_⟩
  · intro h
    simp [Queue.clear_except, h]
  · intro hne hge
    unfold Queue.clear_except
    rw [dif_neg (by
      intro hc
      omega)]
    rw [if_neg (by
      rw [List.isEmpty_iff]
      exact hne)]
  · intro h
    have hne : q.items ≠ [] := by
      intro hc
      rw [hc] at h
      simp at h
    unfold Queue.clear_except
    rw [dif_pos ⟨List.isEmpty_eq_false.mpr hne, h⟩]
    have hmem : q.items.get ⟨idx, h⟩ ∈ q.items.filter
        (fun it => decide (it = q.items.get ⟨idx, h⟩)) :=
      List.mem_filter.mpr ⟨List.get_mem _ _ h, by simp⟩
    rw [if_neg (by
      rw [List.isEmpty_iff]
      exact List.ne_nil_of_mem hmem)]

/-- Counting after an insertion at a valid position. -/
theorem countP_insertIdx {α : Type} (p : α → Bool) (l : List α) (n : Nat) (a : α)
    (h : n ≤ l.length) :
    List.countP p (l.insertIdx n a)
      = List.countP p l + (if p a = true then 1 else 0) := by
  rw [insertIdx_take_drop _ _ _ h, List.countP_append, List.countP_cons]
  conv_rhs => rw [← List.take_append_drop n l]
  rw [List.countP_append]
  omega

/-- C3: `add_item` resets the anchor entry (scanning for the `AddHere`
position, default 0), inserts the new item with state `AddHere` immediately
after it (position 0 on an empty queue), and afterwards exactly one anchor
exists and the length grew by one. -/
theorem claim_C3 (q : Queue T U L) (x : QueueItemType T U) (s : Option L) (b : Bool)
    (hu : countAddHere q.items ≤ 1) :
    (Queue.add_item q x s b).items
      = (specResetAnchor q.items).insertIdx
          (if q.items.isEmpty then 0 else (specAnchorIdx q.items).getD 0 + 1)
          ⟨x, QueueState.AddHere, s, b⟩
    ∧ countAddHere (Queue.add_item q x s b).items = 1
    ∧ (Queue.add_item q x s b).items.length = q.items.length + 1 := by
  have hreset := resetAddHere_char q.items hu
  have hlast := lastAddHereIdx_char q.items hu
  have heq1 : (Queue.add_item q x s b).items
      = (Queue.resetAddHere q.items).insertIdx
          (Queue.lastAddHereIdx q.items
            + if (Queue.resetAddHere q.items).isEmpty then 0 else 1)
          ⟨x, QueueState.AddHere, s, b⟩ := rfl
  by_cases hne : q.items = []
  · rw [hne] at hreset hlast ⊢
    constructor
    · rw [heq1, hne]
      simp [Queue.resetAddHere, Queue.lastAddHereIdx, Queue.lastAddHereIdxAux,
        specResetAnchor, specAnchorIdx, List.findIdx?_nil, List.insertIdx_zero]
    · constructor
      · rw [heq1, hne]
        simp [Queue.resetAddHere, Queue.lastAddHereIdx, Queue.lastAddHereIdxAux,
          List.insertIdx_zero, countAddHere]
      · rw [heq1, hne]
        simp [Queue.resetAddHere, Queue.lastAddHereIdx, Queue.lastAddHereIdxAux,
          List.insertIdx_zero]
  · have hposlt := lastAddHereIdx_lt q.items hne
    have hem : (Queue.resetAddHere q.items).isEmpty = false := by
      rw [isEmpty_resetAddHere, List.isEmpty_eq_false]
      exact hne
    have hem2 : q.items.isEmpty = false := List.isEmpty_eq_false.mpr hne
    have hpos2 : Queue.lastAddHereIdx q.items
        + (if (Queue.resetAddHere q.items).isEmpty then 0 else 1)
        ≤ (Queue.resetAddHere q.items).length := by
      rw [hem, length_resetAddHere]
      simpa using hposlt
    refine ⟨?_, ?_, ?_⟩
    · rw [heq1, hem, hreset, hlast, hem2]
      simp
    · have hz := countAddHere_resetAddHere q.items
      unfold countAddHere at hz ⊢
      rw [heq1, countP_insertIdx _ _ _ _ hpos2, hz]
      simp
    · rw [heq1, List.length_insertIdx _ _ hpos2, length_resetAddHere]

/-- Witness for C3 at a concrete queue with the anchor in second position. -/
theorem claim_C3_witness :
    countAddHere (Queue.add_item (⟨[⟨QueueItemType.Single 0, QueueState.NoState, none,
        false⟩, ⟨QueueItemType.Single 1, QueueState.AddHere, none, false⟩], [], false,
        none⟩ : Queue Nat Nat Nat) (QueueItemType.Single 2) none false).items = 1 :=
  (claim_C3 _ _ _ _ (by decide)).2.1

/-- Iterating a partial transition one more time, unrolled on the right. -/
theorem iterOp_succ_right (f : Queue T U L → Option (Queue T U L)) (n : Nat)
    (q : Queue T U L) :
    iterOp f (n + 1) q = (iterOp f n q).bind f := by
  induction n generalizing q with
  | zero =>
    cases hf : f q with
    | none => simp [iterOp, hf]
    | some q1 => simp [iterOp, hf]
  | succ m ih =>
    cases hf : f q with
    | none => simp [iterOp, hf]
    | some q1 =>
      have h1 : iterOp f (m + 1 + 1) q = iterOp f (m + 1) q1 := by simp [iterOp, hf]
      have h2 : iterOp f (m + 1) q = iterOp f m q1 := by simp [iterOp, hf]
      rw [h1, h2, ih]

/-- When the front is not the anchor but an anchor exists, the rest of the
queue is non-empty. -/
theorem anchor_in_rest (q : Queue T U L) (f : QueueItem T U L)
    (rest : List (QueueItem T U L)) (hq : q.items = f :: rest)
    (hfs : f.state ≠ QueueState.AddHere) (hah : Queue.has_addhere q = true) :
    rest ≠ [] := by
  intro hc
  unfold Queue.has_addhere at hah
  rw [hq, hc] at hah
  simp [hfs] at hah

/-- A calm `next` pops the front into history and changes nothing else. -/
theorem calm_next (q : Queue T U L) (f : QueueItem T U L)
    (rest : List (QueueItem T U L)) (hq : q.items = f :: rest)
    (hfs : f.state ≠ QueueState.AddHere) (hah : Queue.has_addhere q = true) :
    nextQ? q = some { q with items := rest, played := q.played ++ [f] } := by
  obtain ⟨r0, rtail, hr⟩ : ∃ r0 rtail, rest = r0 :: rtail := by
    cases rest with
    | nil => exact absurd rfl (anchor_in_rest q f [] hq hfs hah)
    | cons r0 rtail => exact ⟨r0, rtail, rfl⟩
  unfold nextQ? Queue.next
  simp only [hq]
  rw [if_neg (by simp [hfs, hah])]
  simp [hr]

/-- A `prev` right after a calm `next` restores the popped front exactly. -/
theorem calm_prev (pl : List (QueueItem T U L)) (f r0 : QueueItem T U L)
    (rtail : List (QueueItem T U L)) (sh : Option (List Nat))
    (hf : isSingleItem f.item = true) (hr0 : isSingleItem r0.item = true) :
    prevQ? (⟨r0 :: rtail, pl ++ [f], false, sh⟩ : Queue T U L)
      = some ⟨f :: r0 :: rtail, pl, false, sh⟩ := by
  unfold prevQ? Queue.prev
  simp only [List.getLast?_concat]
  rw [if_neg (by simp)]
  cases hfi : f.item with
  | Multi u => simp [isSingleItem, hfi] at hf
  | Single t =>
    cases hri : r0.item with
    | Multi u => simp [isSingleItem, hri] at hr0
    | Single t2 => simp [hfi, hri, List.dropLast_concat]

/-- C2 (amended): when the `n` successive `next()` calls are all calm — the
front entry is never the anchor while an anchor exists elsewhere — and the
queue holds no group items and the loop flag is off, `n` calls to `prev()`
restore the whole queue (in particular `items`, with every entry's `state`,
`source` and `by_human` field) exactly. -/
theorem claim_C2_amended (q : Queue T U L) (n : Nat) (hl : q.loop_ = false)
    (hs : allSingle q.items = true) (hc : calmN n q = true) :
    (iterOp nextQ? n q).bind (iterOp prevQ? n) = some q := by
  induction n generalizing q with
  | zero => simp [iterOp]
  | succ m ih =>
    unfold calmN at hc
    rw [Bool.and_eq_true] at hc
    obtain ⟨hcf, hrest⟩ := hc
    unfold calmFront at hcf
    cases hq : q.items with
    | nil => rw [hq] at hcf; simp at hcf
    | cons f rest =>
      rw [hq] at hcf
      rw [Bool.and_eq_true, Bool.not_eq_true', decide_eq_false_iff_not] at hcf
      obtain ⟨hfs, hah⟩ := hcf
      have hnext := calm_next q f rest hq hfs hah
      rw [hnext] at hrest
      have hs1 : allSingle ({ q with items := rest, played := q.played ++ [f] } :
          Queue T U L).items = true := by
        rw [hq] at hs
        unfold allSingle at hs ⊢
        simp only [List.all_cons, Bool.and_eq_true] at hs
        exact hs.2
      have hprefix := ih { q with items := rest, played := q.played ++ [f] } hl hs1 hrest
      have hstep : iterOp nextQ? (m + 1) q
          = iterOp nextQ? m { q with items := rest, played := q.played ++ [f] } := by
        simp [iterOp, hnext]
      rw [hstep]
      have hbind : ∀ X : Option (Queue T U L),
          X.bind (iterOp prevQ? (m + 1)) = (X.bind (iterOp prevQ? m)).bind prevQ? := by
        intro X
        cases X with
        | none => rfl
        | some y => simp [iterOp_succ_right]
      rw [hbind, hprefix]
      obtain ⟨r0, rtail, hr⟩ : ∃ r0 rtail, rest = r0 :: rtail := by
        cases rest with
        | nil => exact absurd rfl (anchor_in_rest q f [] hq hfs hah)
        | cons r0 rtail => exact ⟨r0, rtail, rfl⟩
      rw [hq] at hs
      unfold allSingle at hs
      rw [hr] at hs
      simp only [List.all_cons, Bool.and_eq_true] at hs
      obtain ⟨hfS, hr0S, _⟩ := hs
      obtain ⟨qi, qp, ql, qsh⟩ := q
      simp only at hq hl
      subst hq hl
      simp only [Option.some_bind]
      rw [hr]
      exact calm_prev qp f r0 rtail qsh hfS hr0S

/-- Witness for C2 (amended) at a concrete queue, one step. -/
theorem claim_C2_witness :
    (iterOp nextQ? 1 (⟨[⟨QueueItemType.Single 0, QueueState.NoState, none, false⟩,
        ⟨QueueItemType.Single 1, QueueState.AddHere, none, false⟩], [], false, none⟩ :
      Queue Nat Nat Nat)).bind (iterOp prevQ? 1)
      = some ⟨[⟨QueueItemType.Single 0, QueueState.NoState, none, false⟩,
          ⟨QueueItemType.Single 1, QueueState.AddHere, none, false⟩], [], false, none⟩ :=
  claim_C2_amended _ 1 rfl (by decide) (by decide)

/-- Witness for C7 at a concrete queue containing a duplicate value. -/
theorem claim_C7_witness :
    Queue.clear_except (⟨[⟨QueueItemType.Single 5, QueueState.NoState, none, false⟩,
        ⟨QueueItemType.Single 1, QueueState.NoState, none, false⟩,
        ⟨QueueItemType.Single 5, QueueState.NoState, none, false⟩], [], false, none⟩ :
      Queue Nat Nat Nat) 0
      = PRes.ok ⟨[⟨QueueItemType.Single 5, QueueState.AddHere, none, false⟩,
          ⟨QueueItemType.Single 5, QueueState.NoState, none, false⟩], [], false, none⟩ () := by
  have := (claim_C7 (⟨[⟨QueueItemType.Single 5, QueueState.NoState, none, false⟩,
      ⟨QueueItemType.Single 1, QueueState.NoState, none, false⟩,
      ⟨QueueItemType.Single 5, QueueState.NoState, none, false⟩], [], false, none⟩ :
    Queue Nat Nat Nat) 0).2.2 (by decide)
  simpa [Queue.setStateAt, List.filter] using this

end Kushi
